import Mathlib

/-!
Verification of the record data model and CRUD/query engine of `todo_app.py`.

The embedding below translates the source functions into Lean:

* `py_strip` models `str.strip()` (ASCII whitespace; Python additionally strips
  Unicode space characters, which no property here depends on).
* `strptime_Ymd` models `datetime.strptime(s, "%Y-%m-%d").date()`: CPython's
  `_strptime` compiles the format to the regex
  `(?P<Y>\d\d\d\d)-(?P<m>\d{1,2})-(?P<d>\d{1,2})`, requires the match to consume
  the whole string, and `datetime(year, month, day)` then validates the calendar
  date (MINYEAR = 1, MAXYEAR = 9999).  `none` stands for a raised `ValueError`.
* `Todo` is the dataclass with its intended field types; `DynTodo` is the
  record `Todo(**item)` builds from untrusted file data, where the dataclass
  performs no type validation and each field holds an arbitrary JSON value.
* The backing file `todos.json` is modelled by `FileState`: absent, containing
  text that `json.load` rejects (`corrupt`), or containing a JSON value.
* Mutating operations act on an `AppState` (in-memory collection plus backing
  file); raising `ValueError` is modelled by `Except.error` with the message.
-/

/-- ASCII characters removed by Python's `str.strip()`. -/
def is_py_space (c : Char) : Bool :=
  c = ' ' || c = '\t' || c = '\n' || c = '\r' || c = '\x0b' || c = '\x0c'

/-- Model of `s.strip()`: drop leading and trailing whitespace characters. -/
def py_strip (s : String) : String :=
  String.mk (((s.data.dropWhile is_py_space).reverse.dropWhile is_py_space).reverse)

/-- Numeric value of an ASCII digit. -/
def digit_val (c : Char) : Nat := c.toNat - '0'.toNat

/-- Value of a digit string, as `int()` computes it on the regex group. -/
def digits_val (cs : List Char) : Nat := cs.foldl (fun a c => a * 10 + digit_val c) 0

/-- A calendar date as produced by `datetime.date`. -/
structure PyDate where
  year : Nat
  month : Nat
  day : Nat
deriving DecidableEq, Repr

/-- Gregorian leap-year rule used by `datetime`. -/
def is_leap (y : Nat) : Bool := y % 4 = 0 && (y % 100 ≠ 0 || y % 400 = 0)

/-- Days in a month, as `datetime` validates them. -/
def days_in_month (y m : Nat) : Nat :=
  if m = 2 then (if is_leap y then 29 else 28)
  else if m = 4 || m = 6 || m = 9 || m = 11 then 30
  else 31

/-- The validation `datetime(year, month, day)` performs on the parsed fields. -/
def date_ok (y m d : Nat) : Bool :=
  decide (1 ≤ y) && decide (y ≤ 9999) && decide (1 ≤ m) && decide (m ≤ 12) &&
    decide (1 ≤ d) && decide (d ≤ days_in_month y m)

/-- Greedy run of ASCII digits at the head of the input, with the rest. -/
def digit_run : List Char → List Char × List Char
  | [] => ([], [])
  | c :: cs =>
    if c.isDigit then
      let p := digit_run cs
      (c :: p.1, p.2)
    else ([], c :: cs)

/-- Model of `datetime.strptime(s, "%Y-%m-%d").date()` (see the header comment):
four digits, a hyphen, one or two digits, a hyphen, one or two digits, nothing
else, and the three numbers must form a valid calendar date. -/
def strptime_Ymd (s : String) : Option PyDate :=
  match s.data with
  | c1 :: c2 :: c3 :: c4 :: '-' :: rest =>
    if c1.isDigit && c2.isDigit && c3.isDigit && c4.isDigit then
      let pm := digit_run rest
      if decide (1 ≤ pm.1.length) && decide (pm.1.length ≤ 2) then
        match pm.2 with
        | '-' :: rest3 =>
          let pd := digit_run rest3
          if (decide (1 ≤ pd.1.length) && decide (pd.1.length ≤ 2)) && pd.2.isEmpty then
            let y := digits_val [c1, c2, c3, c4]
            let m := digits_val pm.1
            let d := digits_val pd.1
            if date_ok y m d then some ⟨y, m, d⟩ else none
          else none
        | _ => none
      else none
    else none
  | _ => none

/-- The `Todo` dataclass of `todo_app.py`, with its intended field types. -/
structure Todo where
  id : Int
  title : String
  description : String
  due_date : Option String := none
  completed : Bool := false
  created_at : String := ""
deriving DecidableEq, Repr

/-- `Todo.due_as_date`: `None` for a falsy stored value (absent or empty string),
otherwise the `strptime` parse, with a `ValueError` caught into `None`. -/
def Todo.due_as_date (t : Todo) : Option PyDate :=
  match t.due_date with
  | none => none
  | some s => if s = "" then none else strptime_Ymd s

/-- JSON values, as produced by `json.load` on the backing file. -/
inductive JValue where
  | null : JValue
  | bool (b : Bool) : JValue
  | num (n : Int) : JValue
  | str (s : String) : JValue
  | arr (items : List JValue) : JValue
  | obj (fields : List (String × JValue)) : JValue

/-- State of the backing file `todos.json`: absent, present but rejected by
`json.load` (raising `JSONDecodeError`), or holding a parsed JSON value. -/
inductive FileState where
  | missing : FileState
  | corrupt : FileState
  | content (j : JValue) : FileState

/-- The record `Todo(**item)` constructs from file data: the dataclass performs
no type validation, so each field holds whatever JSON value the file supplied.
The defaults mirror the dataclass defaults. -/
structure DynTodo where
  id : JValue
  title : JValue
  description : JValue
  due_date : JValue := JValue.null
  completed : JValue := JValue.bool false
  created_at : JValue := JValue.str ""

/-- Field names of the `Todo` dataclass, in declaration order. -/
def todo_field_names : List String :=
  ["id", "title", "description", "due_date", "completed", "created_at"]

/-- Lookup of a key in a JSON object's field list. -/
def j_lookup (fields : List (String × JValue)) (k : String) : Option JValue :=
  (fields.find? (fun p => p.1 = k)).map (fun p => p.2)

/-- Model of `Todo(**item)`: `item` must be a JSON object whose keys are
dataclass field names and include the three fields without defaults; the values
are taken as they are, with no type check.  `none` models the `TypeError` that
`load_todos` catches (non-object item, unexpected key, missing required key). -/
def todo_from_item (j : JValue) : Option DynTodo :=
  match j with
  | JValue.obj fs =>
    if fs.all (fun p => todo_field_names.contains p.1)
        && (j_lookup fs "id").isSome && (j_lookup fs "title").isSome
        && (j_lookup fs "description").isSome then
      some { id := (j_lookup fs "id").getD JValue.null,
             title := (j_lookup fs "title").getD JValue.null,
             description := (j_lookup fs "description").getD JValue.null,
             due_date := (j_lookup fs "due_date").getD JValue.null,
             completed := (j_lookup fs "completed").getD (JValue.bool false),
             created_at := (j_lookup fs "created_at").getD (JValue.str "") }
    else none
  | _ => none

/-- The list comprehension `[Todo(**item) for item in raw]`: builds the records
in order and aborts on the first failing item. -/
def todos_from_items : List JValue → Option (List DynTodo)
  | [] => some []
  | j :: js =>
    match todo_from_item j with
    | none => none
    | some t =>
      match todos_from_items js with
      | none => none
      | some ts => some (t :: ts)

/-- Decoding the whole file: the comprehension `[Todo(**item) for item in raw]`
iterates `raw`.  A JSON array iterates its items; a JSON object iterates its
keys and a JSON string its characters, and `Todo(**item)` raises `TypeError`
on any string item, so a non-empty object or string fails while the empty
object `{}` and the empty string `""` iterate nothing and yield an empty
collection without raising; null, booleans and numbers are not iterable and
raise `TypeError` at the loop itself.  `none` models a raised `TypeError`. -/
def todos_from_json (j : JValue) : Option (List DynTodo) :=
  match j with
  | JValue.arr items => todos_from_items items
  | JValue.obj fields => if fields.isEmpty then some [] else none
  | JValue.str s => if s = "" then some [] else none
  | _ => none

/-- `load_todos()`: missing file yields an empty list; a file `json.load`
rejects, or whose value does not decode into records, yields an empty list and
a printed warning (the `Bool` component records whether the warning fired). -/
def load_todos (f : FileState) : List DynTodo × Bool :=
  match f with
  | FileState.missing => ([], false)
  | FileState.corrupt => ([], true)
  | FileState.content j =>
    match todos_from_json j with
    | some ts => (ts, false)
    | none => ([], true)

/-- `asdict(t)` followed by JSON serialization: one object per record, fields in
dataclass order. -/
def encode_todo (t : Todo) : JValue :=
  JValue.obj [("id", JValue.num t.id), ("title", JValue.str t.title),
    ("description", JValue.str t.description),
    ("due_date", match t.due_date with | none => JValue.null | some s => JValue.str s),
    ("completed", JValue.bool t.completed), ("created_at", JValue.str t.created_at)]

/-- The file content `save_todos` writes: the JSON array of encoded records. -/
def save_file (todos : List Todo) : FileState :=
  FileState.content (JValue.arr (todos.map encode_todo))

/-- The typed embedding of a well-typed record into its loaded, duck-typed
form: each field is wrapped in the corresponding JSON value. -/
def Todo.toDyn (t : Todo) : DynTodo :=
  { id := JValue.num t.id, title := JValue.str t.title,
    description := JValue.str t.description,
    due_date := match t.due_date with | none => JValue.null | some s => JValue.str s,
    completed := JValue.bool t.completed, created_at := JValue.str t.created_at }

/-- The in-memory collection together with the backing file. -/
structure AppState where
  todos : List Todo
  file : FileState

/-- `save_todos(todos)`: overwrite the backing file with the serialized
collection. -/
def save_todos (s : AppState) : AppState := { s with file := save_file s.todos }

/-- `next_id(todos)`: `max((t.id for t in todos), default=0) + 1`. -/
def next_id (todos : List Todo) : Int :=
  (match todos.map Todo.id with
   | [] => 0
   | x :: xs => xs.foldl max x) + 1

/-- `parse_due_date(s)`: `None` input passes through; the input is stripped; an
empty result means no date; otherwise `strptime` must accept it or a
`ValueError` carrying the offending text is raised (`Except.error`). -/
def parse_due_date (s? : Option String) : Except String (Option String) :=
  match s? with
  | none => Except.ok none
  | some s0 =>
    let s := py_strip s0
    if s = "" then Except.ok none
    else
      match strptime_Ymd s with
      | some _ => Except.ok (some s)
      | none => Except.error s

/-- `find_by_id(todos, todo_id)`: first record with the given id, if any. -/
def find_by_id (todos : List Todo) (todo_id : Int) : Option Todo :=
  todos.find? (fun t => decide (t.id = todo_id))

/-- Comparison of `datetime.date` values: lexicographic on (year, month, day). -/
def date_lt (a b : PyDate) : Bool :=
  decide (a.year < b.year) ||
    (decide (a.year = b.year) &&
      (decide (a.month < b.month) ||
        (decide (a.month = b.month) && decide (a.day < b.day))))

/-- The comparison Python's sort applies to the key tuples of `list_todos`:
`key(t) = (0, d, t.id)` for a record whose stored date parses, and
`(1, date.max, t.id)` otherwise, compared lexicographically.  (A parseable
date is never sorted by the `date.max` sentinel, so the groups are decided by
the first component; within the groups the date and then the id decide.) -/
def sort_key_le (a b : Todo) : Bool :=
  match a.due_as_date, b.due_as_date with
  | some da, some db => date_lt da db || (decide (da = db) && decide (a.id ≤ b.id))
  | some _, none => true
  | none, some _ => false
  | none, none => decide (a.id ≤ b.id)

/-- The sort relation of `items.sort(key=key)` in due-date mode. -/
def sort_key_rel (a b : Todo) : Prop := sort_key_le a b = true

instance : DecidableRel sort_key_rel :=
  fun a b => inferInstanceAs (Decidable (sort_key_le a b = true))

/-- The sort relation of `items.sort(key=lambda x: x.id)`. -/
def id_le_rel (a b : Todo) : Prop := a.id ≤ b.id

instance : DecidableRel id_le_rel :=
  fun a b => inferInstanceAs (Decidable (a.id ≤ b.id))

/-- `list_todos(todos, sort_by_due, open_only)` as the ordered sequence it
displays: copy, filter completed records if `open_only`, and sort by the
due-date key or by id.  Python's sort is stable; it is modelled by a stable
insertion sort, which produces the same sequence for these total preorders. -/
def list_todos (todos : List Todo) (sort_by_due open_only : Bool) : List Todo :=
  let items := if open_only then todos.filter (fun t => !t.completed) else todos
  if sort_by_due then items.insertionSort sort_key_rel
  else items.insertionSort id_le_rel

/-- `add_todo(todos, title, description, due)`: build the record with a fresh
id, trimmed texts, `completed = False` and the current timestamp (passed in as
`now`), append it, save, and return it. -/
def add_todo (s : AppState) (title description : String) (due : Option String)
    (now : String) : AppState × Todo :=
  let t : Todo :=
    { id := next_id s.todos, title := py_strip title,
      description := py_strip description, due_date := due,
      completed := false, created_at := now }
  (save_todos { s with todos := s.todos ++ [t] }, t)

/-- In-place mutation of the first record carrying the given id (the object
`find_by_id` returned), leaving every other record alone. -/
def update_first (todo_id : Int) (f : Todo → Todo) : List Todo → List Todo
  | [] => []
  | t :: ts => if t.id = todo_id then f t :: ts else t :: update_first todo_id f ts

/-- The field mutations of `update_todo_fields` on the found record: a supplied
title or description is stripped and stored; `clear_due` erases the due date
and otherwise a supplied due value is stored; absent arguments change
nothing. -/
def apply_update (title desc due : Option String) (clear_due : Bool) (t : Todo) : Todo :=
  let t1 := match title with | some v => { t with title := py_strip v } | none => t
  let t2 := match desc with | some v => { t1 with description := py_strip v } | none => t1
  if clear_due then { t2 with due_date := none }
  else match due with | some v => { t2 with due_date := some v } | none => t2

/-- `update_todo_fields`: raise `ValueError("To-do not found.")` when the id is
absent, otherwise mutate the found record and save. -/
def update_todo_fields (s : AppState) (todo_id : Int)
    (title desc due : Option String) (clear_due : Bool) : Except String AppState :=
  match find_by_id s.todos todo_id with
  | none => Except.error "To-do not found."
  | some _ =>
    Except.ok (save_todos
      { s with todos := update_first todo_id (apply_update title desc due clear_due) s.todos })

/-- `set_complete`: raise `ValueError("To-do not found.")` when the id is
absent, otherwise set the flag on the found record and save. -/
def set_complete (s : AppState) (todo_id : Int) (completed : Bool) : Except String AppState :=
  match find_by_id s.todos todo_id with
  | none => Except.error "To-do not found."
  | some _ =>
    Except.ok (save_todos
      { s with todos := update_first todo_id (fun t => { t with completed := completed }) s.todos })

/-- Removal of the first record carrying the given id: `todos.remove(t)` on the
object `find_by_id` returned (every record before it has a different id, hence
compares unequal, so exactly the found record is removed). -/
def delete_first (todo_id : Int) : List Todo → List Todo
  | [] => []
  | t :: ts => if t.id = todo_id then ts else t :: delete_first todo_id ts

/-- `delete_todo`: raise `ValueError("To-do not found.")` when the id is
absent, otherwise remove the found record and save. -/
def delete_todo (s : AppState) (todo_id : Int) : Except String AppState :=
  match find_by_id s.todos todo_id with
  | none => Except.error "To-do not found."
  | some _ => Except.ok (save_todos { s with todos := delete_first todo_id s.todos })

/-- One mutating operation of the engine, with the external timestamp of a
creation supplied as data. -/
inductive Op where
  | create (title description : String) (due : Option String) (now : String) : Op
  | update (todo_id : Int) (title desc due : Option String) (clear_due : Bool) : Op
  | mark (todo_id : Int) (completed : Bool) : Op
  | delete (todo_id : Int) : Op

/-- Effect of one operation on the state; a raised `ValueError` aborts the
operation before any mutation or save, leaving the state as it was. -/
def run_op (s : AppState) : Op → AppState
  | Op.create ti de du now => (add_todo s ti de du now).1
  | Op.update i a b c cl =>
    match update_todo_fields s i a b c cl with
    | Except.ok s' => s'
    | Except.error _ => s
  | Op.mark i c =>
    match set_complete s i c with
    | Except.ok s' => s'
    | Except.error _ => s
  | Op.delete i =>
    match delete_todo s i with
    | Except.ok s' => s'
    | Except.error _ => s

/-- A sequence of operations, run left to right. -/
def run_ops (s : AppState) (ops : List Op) : AppState := ops.foldl run_op s

/-- The ids of a collection, in order. -/
def ids (todos : List Todo) : List Int := todos.map Todo.id

/-- Strict calendar order on dates, as the spec's "ascending by date". -/
def pydate_lt (a b : PyDate) : Prop :=
  a.year < b.year ∨ (a.year = b.year ∧ (a.month < b.month ∨ (a.month = b.month ∧ a.day < b.day)))

/-- The ordering the spec prescribes for `sort_by_due`: records with a
parseable stored date come first, ascending by date with ties broken by
ascending id; records without one come last, ordered by ascending id. -/
def due_order (a b : Todo) : Prop :=
  match a.due_as_date, b.due_as_date with
  | some da, some db => pydate_lt da db ∨ (da = db ∧ a.id ≤ b.id)
  | some _, none => True
  | none, some _ => False
  | none, none => a.id ≤ b.id

/-- A text with no leading or trailing whitespace, i.e. fixed by stripping. -/
def trimmed (x : String) : Prop := py_strip x = x

/-- The data-model invariant that all stored titles and descriptions are
trimmed. -/
def well_trimmed (todos : List Todo) : Prop :=
  ∀ t ∈ todos, trimmed t.title ∧ trimmed t.description

/-- The date-text shape `parse_due_date` actually accepts: four ASCII digits, a
hyphen, one or two digits, a hyphen, one or two digits, spanning the whole
string, whose numbers form a real calendar date (year at least 1). -/
def accepted_date_format (s : String) : Prop :=
  ∃ ys ms ds : List Char,
    s.data = ys ++ '-' :: (ms ++ '-' :: ds)
    ∧ ys.length = 4 ∧ 1 ≤ ms.length ∧ ms.length ≤ 2 ∧ 1 ≤ ds.length ∧ ds.length ≤ 2
    ∧ (∀ c ∈ ys, c.isDigit) ∧ (∀ c ∈ ms, c.isDigit) ∧ (∀ c ∈ ds, c.isDigit)
    ∧ date_ok (digits_val ys) (digits_val ms) (digits_val ds) = true

/-! ### Helper lemmas about `next_id` -/

theorem foldl_max_init_le (xs : List Int) (a : Int) : a ≤ xs.foldl max a := by
  induction xs generalizing a with
  | nil => exact le_refl a
  | cons x xs ih => exact le_trans (le_max_left a x) (ih (max a x))

theorem mem_le_foldl_max (xs : List Int) (a x : Int) (h : x ∈ xs) :
    x ≤ xs.foldl max a := by
  induction xs generalizing a with
  | nil => cases h
  | cons y ys ih =>
    rcases List.mem_cons.mp h with rfl | hmem
    · exact le_trans (le_max_right a x) (foldl_max_init_le ys (max a x))
    · exact ih (max a y) hmem

theorem foldl_max_mem (xs : List Int) (a : Int) :
    xs.foldl max a = a ∨ xs.foldl max a ∈ xs := by
  induction xs generalizing a with
  | nil => exact Or.inl rfl
  | cons x xs ih =>
    rcases ih (max a x) with h | h
    · rcases max_choice a x with hm | hm
      · exact Or.inl (by rw [List.foldl_cons, h, hm])
      · exact Or.inr (by rw [List.foldl_cons, h, hm]; exact List.mem_cons_self x xs)
    · exact Or.inr (List.mem_cons_of_mem x h)

theorem id_lt_next_id {todos : List Todo} {t : Todo} (h : t ∈ todos) :
    t.id < next_id todos := by
  unfold next_id
  rcases todos with _ | ⟨u, us⟩
  · cases h
  · have : t.id ≤ (us.map Todo.id).foldl max u.id := by
      rcases List.mem_cons.mp h with rfl | hmem
      · exact foldl_max_init_le _ _
      · exact mem_le_foldl_max _ _ _ (List.mem_map_of_mem Todo.id hmem)
    simpa using Int.lt_add_one_of_le this

theorem next_id_eq_succ_mem {todos : List Todo} (h : todos ≠ []) :
    ∃ t ∈ todos, next_id todos = t.id + 1 := by
  unfold next_id
  rcases todos with _ | ⟨u, us⟩
  · exact absurd rfl h
  · rcases foldl_max_mem (us.map Todo.id) u.id with hm | hm
    · exact ⟨u, List.mem_cons_self u us, by simp [hm]⟩
    · rcases List.mem_map.mp hm with ⟨t, htm, hid⟩
      exact ⟨t, List.mem_cons_of_mem u htm, by simp [hid]⟩

theorem next_id_not_mem (todos : List Todo) : next_id todos ∉ ids todos := by
  intro hmem
  rcases List.mem_map.mp hmem with ⟨t, htm, hid⟩
  exact absurd hid (ne_of_lt (id_lt_next_id htm))

/-! ### Helper lemmas about lookup and in-place list surgery -/

theorem find_by_id_eq_none {todos : List Todo} {i : Int} :
    find_by_id todos i = none ↔ ∀ t ∈ todos, t.id ≠ i := by
  simp [find_by_id, List.find?_eq_none]

theorem find_by_id_split {pre post : List Todo} {t : Todo} {i : Int}
    (hpre : ∀ u ∈ pre, u.id ≠ i) (hid : t.id = i) :
    find_by_id (pre ++ t :: post) i = some t := by
  induction pre with
  | nil => simp [find_by_id, List.find?_cons, hid]
  | cons u us ih =>
    have hu : u.id ≠ i := hpre u (List.mem_cons_self u us)
    have ih' := ih fun v hv => hpre v (List.mem_cons_of_mem u hv)
    simpa [find_by_id, List.find?_cons, hu] using ih'

theorem update_first_split {pre post : List Todo} {t : Todo} {i : Int}
    (f : Todo → Todo) (hpre : ∀ u ∈ pre, u.id ≠ i) (hid : t.id = i) :
    update_first i f (pre ++ t :: post) = pre ++ f t :: post := by
  induction pre with
  | nil => simp [update_first, hid]
  | cons u us ih =>
    have hu : u.id ≠ i := hpre u (List.mem_cons_self u us)
    have ih' := ih fun v hv => hpre v (List.mem_cons_of_mem u hv)
    simp [update_first, hu, ih']

theorem update_first_eq_self (i : Int) (f : Todo → Todo) (hf : ∀ t, f t = t) :
    ∀ l : List Todo, update_first i f l = l := by
  intro l
  induction l with
  | nil => rfl
  | cons t ts ih =>
    by_cases h : t.id = i <;> simp [update_first, h, hf t, ih]

theorem ids_update_first (i : Int) (f : Todo → Todo) (hf : ∀ t, (f t).id = t.id) :
    ∀ l : List Todo, ids (update_first i f l) = ids l := by
  intro l
  induction l with
  | nil => rfl
  | cons t ts ih =>
    by_cases h : t.id = i
    · simp [update_first, ids, h, hf t]
    · simp only [update_first, if_neg h, ids, List.map_cons]
      rw [show List.map Todo.id (update_first i f ts) = ids (update_first i f ts) from rfl, ih]
      rfl

theorem mem_update_first {i : Int} {f : Todo → Todo} {l : List Todo} {u : Todo}
    (h : u ∈ update_first i f l) : u ∈ l ∨ ∃ t ∈ l, u = f t := by
  induction l with
  | nil => cases h
  | cons t ts ih =>
    by_cases hid : t.id = i
    · simp only [update_first, if_pos hid] at h
      rcases List.mem_cons.mp h with rfl | hmem
      · exact Or.inr ⟨t, List.mem_cons_self t ts, rfl⟩
      · exact Or.inl (List.mem_cons_of_mem t hmem)
    · simp only [update_first, if_neg hid] at h
      rcases List.mem_cons.mp h with rfl | hmem
      · exact Or.inl (List.mem_cons_self u ts)
      · rcases ih hmem with h1 | ⟨v, hv, rfl⟩
        · exact Or.inl (List.mem_cons_of_mem t h1)
        · exact Or.inr ⟨v, List.mem_cons_of_mem t hv, rfl⟩

theorem delete_first_sublist (i : Int) : ∀ l : List Todo, (delete_first i l).Sublist l := by
  intro l
  induction l with
  | nil => exact List.Sublist.refl []
  | cons t ts ih =>
    by_cases h : t.id = i
    · rw [delete_first, if_pos h]
      exact List.sublist_cons_self t ts
    · rw [delete_first, if_neg h]
      exact List.Sublist.cons₂ t ih

/-! ### Field behaviour of `apply_update` -/

theorem apply_update_id (title desc due : Option String) (cl : Bool) (t : Todo) :
    (apply_update title desc due cl t).id = t.id := by
  cases title <;> cases desc <;> cases cl <;> cases due <;> rfl

theorem apply_update_completed (title desc due : Option String) (cl : Bool) (t : Todo) :
    (apply_update title desc due cl t).completed = t.completed := by
  cases title <;> cases desc <;> cases cl <;> cases due <;> rfl

theorem apply_update_created_at (title desc due : Option String) (cl : Bool) (t : Todo) :
    (apply_update title desc due cl t).created_at = t.created_at := by
  cases title <;> cases desc <;> cases cl <;> cases due <;> rfl

theorem apply_update_title (title desc due : Option String) (cl : Bool) (t : Todo) :
    (apply_update title desc due cl t).title
      = (match title with | some v => py_strip v | none => t.title) := by
  cases title <;> cases desc <;> cases cl <;> cases due <;> rfl

theorem apply_update_description (title desc due : Option String) (cl : Bool) (t : Todo) :
    (apply_update title desc due cl t).description
      = (match desc with | some v => py_strip v | none => t.description) := by
  cases title <;> cases desc <;> cases cl <;> cases due <;> rfl

theorem apply_update_due_date (title desc due : Option String) (cl : Bool) (t : Todo) :
    (apply_update title desc due cl t).due_date
      = (if cl then none else match due with | some v => some v | none => t.due_date) := by
  cases title <;> cases desc <;> cases cl <;> cases due <;> rfl

/-! ### Id uniqueness is preserved by every operation -/

theorem nodup_ids_run_op (s : AppState) (op : Op)
    (h : (ids s.todos).Nodup) : (ids (run_op s op).todos).Nodup := by
  cases op with
  | create ti de du now =>
    have : ids ((add_todo s ti de du now).1.todos) = ids s.todos ++ [next_id s.todos] := by
      simp [add_todo, save_todos, ids]
    rw [run_op, this]
    simp only [List.nodup_append, List.nodup_cons, List.nodup_nil]
    exact ⟨h, ⟨by simp, trivial⟩, by
      intro x hx hmem
      rcases List.mem_singleton.mp hmem with rfl
      exact next_id_not_mem s.todos hx⟩
  | update i a b c cl =>
    rw [run_op]
    rcases hf : find_by_id s.todos i with _ | t
    · simpa [update_todo_fields, hf] using h
    · have : ids (update_first i (apply_update a b c cl) s.todos) = ids s.todos :=
        ids_update_first i (apply_update a b c cl) (fun t => apply_update_id a b c cl t) s.todos
      simp [update_todo_fields, hf, save_todos, this, h]
  | mark i c =>
    rw [run_op]
    rcases hf : find_by_id s.todos i with _ | t
    · simpa [set_complete, hf] using h
    · have : ids (update_first i (fun t => { t with completed := c }) s.todos) = ids s.todos :=
        ids_update_first i (fun t => { t with completed := c }) (fun t => rfl) s.todos
      simp [set_complete, hf, save_todos, this, h]
  | delete i =>
    rw [run_op]
    rcases hf : find_by_id s.todos i with _ | t
    · simpa [delete_todo, hf] using h
    · have hsub : (ids (delete_first i s.todos)).Sublist (ids s.todos) :=
        List.Sublist.map Todo.id (delete_first_sublist i s.todos)
      simpa [delete_todo, hf, save_todos] using hsub.nodup h

theorem nodup_ids_run_ops (ops : List Op) (s : AppState)
    (h : (ids s.todos).Nodup) : (ids (run_ops s ops).todos).Nodup := by
  induction ops generalizing s with
  | nil => exact h
  | cons op ops ih =>
    have : run_ops s (op :: ops) = run_ops (run_op s op) ops := rfl
    rw [this]
    exact ih (run_op s op) (nodup_ids_run_op s op h)

/-! ### Stripping is idempotent -/

theorem dropWhile_dropWhile (p : Char → Bool) (l : List Char) :
    (l.dropWhile p).dropWhile p = l.dropWhile p := by
  induction l with
  | nil => rfl
  | cons c cs ih =>
    by_cases hc : p c
    · simp [List.dropWhile_cons, hc, ih]
    · simp [List.dropWhile_cons, hc]

theorem dropWhile_fix_head {p : Char → Bool} {c : Char} {l : List Char}
    (h : List.dropWhile p (c :: l) = c :: l) : p c = false := by
  by_cases hc : p c
  · exfalso
    rw [List.dropWhile_cons, if_pos hc] at h
    have hlen : (List.dropWhile p l).length ≤ l.length :=
      (List.dropWhile_sublist p).length_le
    have : (List.dropWhile p l).length = l.length + 1 := by rw [h]; rfl
    omega
  · exact eq_false_of_ne_true hc

theorem dropWhile_fix_of_app {p : Char → Bool} {m x w : List Char}
    (hm : List.dropWhile p m = m) (hx : m = x ++ w) :
    List.dropWhile p x = x := by
  rcases x with _ | ⟨c, cs⟩
  · rfl
  · subst hx
    have hc : p c = false := dropWhile_fix_head hm
    rw [List.dropWhile_cons, if_neg (by simp [hc])]

theorem strip_core_idem (l : List Char) :
    ((((((l.dropWhile is_py_space).reverse.dropWhile is_py_space).reverse).dropWhile
        is_py_space).reverse).dropWhile is_py_space).reverse
      = ((l.dropWhile is_py_space).reverse.dropWhile is_py_space).reverse := by
  set p := is_py_space with hp
  set m := l.dropWhile p with hm
  set r := m.reverse.dropWhile p with hr
  have hnolead_m : List.dropWhile p m = m := by rw [hm]; exact dropWhile_dropWhile p l
  have hsplit : m = r.reverse ++ (m.reverse.takeWhile p).reverse := by
    have := List.takeWhile_append_dropWhile p m.reverse
    calc m = m.reverse.reverse := (List.reverse_reverse m).symm
    _ = (m.reverse.takeWhile p ++ m.reverse.dropWhile p).reverse := by rw [this]
    _ = r.reverse ++ (m.reverse.takeWhile p).reverse := by
        rw [List.reverse_append]
  have hfix : List.dropWhile p r.reverse = r.reverse :=
    dropWhile_fix_of_app hnolead_m hsplit
  have hfix_r : List.dropWhile p r = r := by rw [hr]; exact dropWhile_dropWhile p m.reverse
  rw [hfix, List.reverse_reverse, hfix_r]

theorem py_strip_idem (s : String) : py_strip (py_strip s) = py_strip s := by
  unfold py_strip
  exact congrArg String.mk (strip_core_idem s.data)

theorem py_strip_trimmed (s : String) : trimmed (py_strip s) := py_strip_idem s

/-! ### Encoding and decoding records -/

theorem todo_from_item_encode (t : Todo) : todo_from_item (encode_todo t) = some t.toDyn := rfl

theorem todos_from_items_encode (ts : List Todo) :
    todos_from_items (ts.map encode_todo) = some (ts.map Todo.toDyn) := by
  induction ts with
  | nil => rfl
  | cons t ts ih => simp [todos_from_items, todo_from_item_encode, ih]

theorem todos_from_items_none {items : List JValue}
    (h : ∃ j ∈ items, todo_from_item j = none) : todos_from_items items = none := by
  induction items with
  | nil => simp at h
  | cons j js ih =>
    rcases h with ⟨j', hj', hnone⟩
    rcases List.mem_cons.mp hj' with rfl | hmem
    · simp [todos_from_items, hnone]
    · rcases hj : todo_from_item j with _ | t
      · simp [todos_from_items, hj]
      · simp [todos_from_items, hj, ih ⟨j', hmem, hnone⟩]

/-! ### The sort relations of `list_todos` -/

theorem date_lt_iff (a b : PyDate) : date_lt a b = true ↔ pydate_lt a b := by
  simp [date_lt, pydate_lt]

theorem sort_key_rel_iff (a b : Todo) : sort_key_rel a b ↔ due_order a b := by
  unfold sort_key_rel sort_key_le due_order
  rcases ha : a.due_as_date with _ | da <;> rcases hb : b.due_as_date with _ | db <;>
    simp [ha, hb, date_lt_iff]

theorem due_order_trans (a b c : Todo) (h1 : due_order a b) (h2 : due_order b c) :
    due_order a c := by
  unfold due_order at h1 h2 ⊢
  rcases ha : a.due_as_date with _ | da <;> rcases hb : b.due_as_date with _ | db <;>
      rcases hc : c.due_as_date with _ | dc <;>
    simp only [ha, hb, hc] at h1 h2 ⊢ <;> try trivial
  · exact le_trans h1 h2
  · obtain ⟨y1, m1, d1⟩ := da
    obtain ⟨y2, m2, d2⟩ := db
    obtain ⟨y3, m3, d3⟩ := dc
    simp only [pydate_lt, PyDate.mk.injEq] at h1 h2 ⊢
    omega

theorem due_order_total (a b : Todo) : due_order a b ∨ due_order b a := by
  unfold due_order
  rcases ha : a.due_as_date with _ | da <;> rcases hb : b.due_as_date with _ | db <;>
    simp only [ha, hb]
  · exact Int.le_total a.id b.id
  · exact Or.inr trivial
  · exact Or.inl trivial
  · obtain ⟨y1, m1, d1⟩ := da
    obtain ⟨y2, m2, d2⟩ := db
    simp only [pydate_lt, PyDate.mk.injEq]
    omega

theorem sort_key_rel_trans : ∀ a b c : Todo,
    sort_key_rel a b → sort_key_rel b c → sort_key_rel a c :=
  fun a b c h1 h2 => (sort_key_rel_iff a c).mpr
    (due_order_trans a b c ((sort_key_rel_iff a b).mp h1) ((sort_key_rel_iff b c).mp h2))

theorem sort_key_rel_total : ∀ a b : Todo, sort_key_rel a b ∨ sort_key_rel b a := by
  intro a b
  rcases due_order_total a b with h | h
  · exact Or.inl ((sort_key_rel_iff a b).mpr h)
  · exact Or.inr ((sort_key_rel_iff b a).mpr h)

theorem id_le_rel_trans : ∀ a b c : Todo, id_le_rel a b → id_le_rel b c → id_le_rel a c :=
  fun _ _ _ h1 h2 => le_trans h1 h2

theorem id_le_rel_total : ∀ a b : Todo, id_le_rel a b ∨ id_le_rel b a :=
  fun a b => Int.le_total a.id b.id

/-! ### Characterisation of the date parser -/

theorem digit_run_split : ∀ l : List Char, (digit_run l).1 ++ (digit_run l).2 = l := by
  intro l
  induction l with
  | nil => rfl
  | cons c cs ih =>
    by_cases hc : c.isDigit <;> simp [digit_run, hc, ih]

theorem digit_run_digits : ∀ l : List Char, ∀ c ∈ (digit_run l).1, c.isDigit := by
  intro l
  induction l with
  | nil => intro c hc; cases hc
  | cons x xs ih =>
    intro c hc
    by_cases hx : x.isDigit
    · simp only [digit_run, if_pos hx] at hc
      rcases List.mem_cons.mp hc with rfl | hmem
      · exact hx
      · exact ih c hmem
    · simp [digit_run, hx] at hc

theorem digit_run_append_digits (ms : List Char) (x : Char) (r : List Char)
    (hms : ∀ c ∈ ms, c.isDigit) (hx : x.isDigit = false) :
    digit_run (ms ++ x :: r) = (ms, x :: r) := by
  induction ms with
  | nil => simp [digit_run, hx]
  | cons c cs ih =>
    have hc : c.isDigit := hms c (List.mem_cons_self c cs)
    have ih' := ih fun v hv => hms v (List.mem_cons_of_mem c hv)
    simp [digit_run, hc, ih']

theorem digit_run_all_digits (ds : List Char) (h : ∀ c ∈ ds, c.isDigit) :
    digit_run ds = (ds, []) := by
  induction ds with
  | nil => rfl
  | cons c cs ih =>
    have hc : c.isDigit := h c (List.mem_cons_self c cs)
    have ih' := ih fun v hv => h v (List.mem_cons_of_mem c hv)
    simp [digit_run, hc, ih']

theorem strptime_Ymd_ne_none_iff (s : String) :
    strptime_Ymd s ≠ none ↔ accepted_date_format s := by
  constructor
  · intro h
    simp only [strptime_Ymd] at h
    split at h
    case h_2 => exact absurd rfl h
    case h_1 c1 c2 c3 c4 rest hdata =>
      split at h
      case isFalse => exact absurd rfl h
      case isTrue hdig =>
        split at h
        case isFalse => exact absurd rfl h
        case isTrue hmlen =>
          split at h
          case h_2 => exact absurd rfl h
          case h_1 rest3 hm2 =>
            split at h
            case isFalse => exact absurd rfl h
            case isTrue hdlen =>
              split at h
              case isFalse => exact absurd rfl h
              case isTrue hok =>
                simp only [Bool.and_eq_true, decide_eq_true_eq] at hdig hmlen hdlen
                refine ⟨[c1, c2, c3, c4], (digit_run rest).1, (digit_run rest3).1,
                  ?_, rfl, hmlen.1, hmlen.2, hdlen.1.1, hdlen.1.2, ?_, ?_, ?_, hok⟩
                · have hrest : rest = (digit_run rest).1 ++ '-' :: rest3 := by
                    conv_lhs => rw [← digit_run_split rest]
                    rw [hm2]
                  have hrest3 : rest3 = (digit_run rest3).1 := by
                    have hempty : (digit_run rest3).2 = [] :=
                      List.isEmpty_iff.mp hdlen.2
                    conv_lhs => rw [← digit_run_split rest3]
                    rw [hempty, List.append_nil]
                  rw [hdata]
                  conv_lhs => rw [hrest, hrest3]
                  simp
                · intro c hc
                  fin_cases hc
                  · exact hdig.1.1.1
                  · exact hdig.1.1.2
                  · exact hdig.1.2
                  · exact hdig.2
                · exact digit_run_digits rest
                · exact digit_run_digits rest3
  · rintro ⟨ys, ms, ds, hdata, hy4, hm1, hm2, hd1, hd2, hysd, hmsd, hdsd, hok⟩
    obtain ⟨a, b, c, d, rfl⟩ : ∃ a b c d, ys = [a, b, c, d] := by
      rcases ys with _ | ⟨a, ys⟩
      · simp at hy4
      rcases ys with _ | ⟨b, ys⟩
      · simp at hy4
      rcases ys with _ | ⟨c, ys⟩
      · simp at hy4
      rcases ys with _ | ⟨d, ys⟩
      · simp at hy4
      rcases ys with _ | ⟨e, ys⟩
      · exact ⟨a, b, c, d, rfl⟩
      · simp at hy4
    have ha : a.isDigit = true := hysd a (by simp)
    have hb : b.isDigit = true := hysd b (by simp)
    have hc : c.isDigit = true := hysd c (by simp)
    have hd : d.isDigit = true := hysd d (by simp)
    have hrunm : digit_run (ms ++ '-' :: ds) = (ms, '-' :: ds) :=
      digit_run_append_digits ms '-' ds hmsd rfl
    have hrund : digit_run ds = (ds, []) := digit_run_all_digits ds hdsd
    have e1 : decide (1 ≤ ms.length) = true := decide_eq_true hm1
    have e2 : decide (ms.length ≤ 2) = true := decide_eq_true hm2
    have e3 : decide (1 ≤ ds.length) = true := decide_eq_true hd1
    have e4 : decide (ds.length ≤ 2) = true := decide_eq_true hd2
    simp only [strptime_Ymd, hdata, List.cons_append, List.nil_append, ha, hb, hc, hd,
      Bool.and_self, if_true, hrunm, hrund, e1, e2, e3, e4, List.isEmpty_nil,
      Bool.and_true, Bool.true_and, hok]
    simp

/-! ## The claims -/

/-- C1 (amended): for every sequence of create, update, mark and delete
operations starting from a collection with pairwise-distinct ids, every id in
the resulting collection is unique.  (The second half of the original claim —
that an id of a deleted record is never assigned again — is false; see the
counterexample below.) -/
theorem C1_id_uniqueness_preserved (s : AppState) (ops : List Op)
    (h : (ids s.todos).Nodup) : (ids (run_ops s ops).todos).Nodup :=
  nodup_ids_run_ops ops s h

/-- Witness for C1: a concrete run of the amended theorem from the empty
state. -/
theorem C1_id_uniqueness_witness :
    (ids (run_ops ⟨[], FileState.missing⟩
        [Op.create "first" "" none "t", Op.delete 1, Op.create "second" "" none "t"]).todos).Nodup :=
  C1_id_uniqueness_preserved ⟨[], FileState.missing⟩
    [Op.create "first" "" none "t", Op.delete 1, Op.create "second" "" none "t"] (by decide)

/-- Counterexample to C1 as stated: `next_id` is one more than the current
maximum, so after creating records 1 and 2, deleting record 2 and creating
again, the new record receives id 2 — an id that had been assigned to a record
which was later deleted.  Ids are reused after deletion. -/
theorem C1_id_reuse_counterexample :
    ids (run_ops ⟨[], FileState.missing⟩
        [Op.create "first" "" none "t", Op.create "second" "" none "t"]).todos = [1, 2]
    ∧ ids (run_ops ⟨[], FileState.missing⟩
        [Op.create "first" "" none "t", Op.create "second" "" none "t",
          Op.delete 2]).todos = [1]
    ∧ ids (run_ops ⟨[], FileState.missing⟩
        [Op.create "first" "" none "t", Op.create "second" "" none "t", Op.delete 2,
          Op.create "third" "" none "t"]).todos = [1, 2] :=
  ⟨rfl, rfl, rfl⟩

/-- C4: on a collection containing a record with the given id, `update`
applies each optional field only if it is supplied (an absent argument leaves
the stored value unchanged), and when both `clear_due` and a `due` value are
supplied in the same call the clearing wins: the due date afterwards is
absent.  All other records and the id, completion flag and creation timestamp
of the updated record are untouched. -/
theorem C4_update_patch_semantics (s : AppState) (i : Int) (pre post : List Todo) (t : Todo)
    (hsplit : s.todos = pre ++ t :: post) (hpre : ∀ u ∈ pre, u.id ≠ i) (hid : t.id = i)
    (title desc due : Option String) (clear_due : Bool) :
    ∃ t' s', update_todo_fields s i title desc due clear_due = Except.ok s'
      ∧ s'.todos = pre ++ t' :: post
      ∧ t'.id = t.id ∧ t'.completed = t.completed ∧ t'.created_at = t.created_at
      ∧ (title = none → t'.title = t.title)
      ∧ (∀ v, title = some v → t'.title = py_strip v)
      ∧ (desc = none → t'.description = t.description)
      ∧ (∀ v, desc = some v → t'.description = py_strip v)
      ∧ (clear_due = true → t'.due_date = none)
      ∧ (clear_due = false → due = none → t'.due_date = t.due_date)
      ∧ (∀ v, clear_due = false → due = some v → t'.due_date = some v) := by
  have hfind : find_by_id s.todos i = some t := by
    rw [hsplit]; exact find_by_id_split hpre hid
  have hupd : update_first i (apply_update title desc due clear_due) s.todos
      = pre ++ apply_update title desc due clear_due t :: post := by
    rw [hsplit]; exact update_first_split _ hpre hid
  refine ⟨apply_update title desc due clear_due t,
    save_todos { s with todos := pre ++ apply_update title desc due clear_due t :: post },
    ?_, rfl, apply_update_id title desc due clear_due t,
    apply_update_completed title desc due clear_due t,
    apply_update_created_at title desc due clear_due t, ?_, ?_, ?_, ?_, ?_, ?_, ?_⟩
  · rw [update_todo_fields, hfind, hupd]
  · intro h; rw [apply_update_title, h]
  · intro v h; rw [apply_update_title, h]
  · intro h; rw [apply_update_description, h]
  · intro v h; rw [apply_update_description, h]
  · intro h; rw [apply_update_due_date, h]; rfl
  · intro h1 h2; rw [apply_update_due_date, h1, h2]; rfl
  · intro v h1 h2; rw [apply_update_due_date, h1, h2]; rfl

/-- Witness for C4: updating the only record with a supplied title, an absent
description, a supplied due value and `clear_due` set clears the due date,
trims and stores the title, and keeps the description. -/
theorem C4_update_patch_witness :
    ∃ t' s', update_todo_fields
        ⟨[{ id := 1, title := "a", description := "b", due_date := some "2025-01-01",
            completed := false, created_at := "t" }], FileState.missing⟩
        1 (some " New ") none (some "2026-02-02") true = Except.ok s'
      ∧ s'.todos = [t'] ∧ t'.due_date = none ∧ t'.title = py_strip " New "
      ∧ t'.description = "b" := by
  obtain ⟨t', s', h1, h2, hid, hcomp, hcre, htn, hts, hdn, hds, hcl, hkeep, hset⟩ :=
    C4_update_patch_semantics
      ⟨[{ id := 1, title := "a", description := "b", due_date := some "2025-01-01",
          completed := false, created_at := "t" }], FileState.missing⟩
      1 [] [] _ rfl (by simp) rfl (some " New ") none (some "2026-02-02") true
  exact ⟨t', s', h1, h2, hcl rfl, hts " New " rfl, hdn rfl⟩

/-- C5 (amended): a missing backing file loads as an empty collection without
a warning; a file `json.load` rejects loads as an empty collection with a
warning, as does any decoding failure — in particular an array with a
structurally invalid item (non-object, unknown or missing required field),
and it is never a partial collection.  A non-array top-level value warns and
yields an empty collection unless iterating it produces nothing: a file
containing the empty object `{}` or the empty string `""` loads SILENTLY as
an empty collection with no warning, while a non-empty object or string,
null, a boolean or a number warns.  Field VALUE types are not validated: a
structurally valid object with wrong-typed field values is loaded as a record
carrying those values, with no warning (see the counterexample). -/
theorem C5_load_recovery_amended :
    load_todos FileState.missing = ([], false)
    ∧ load_todos FileState.corrupt = ([], true)
    ∧ (∀ j, todos_from_json j = none → load_todos (FileState.content j) = ([], true))
    ∧ (∀ items j, j ∈ items → todo_from_item j = none →
        load_todos (FileState.content (JValue.arr items)) = ([], true))
    ∧ load_todos (FileState.content (JValue.obj [])) = ([], false)
    ∧ load_todos (FileState.content (JValue.str "")) = ([], false)
    ∧ (∀ f fs, load_todos (FileState.content (JValue.obj (f :: fs))) = ([], true))
    ∧ (∀ s, s ≠ "" → load_todos (FileState.content (JValue.str s)) = ([], true))
    ∧ load_todos (FileState.content JValue.null) = ([], true)
    ∧ (∀ b, load_todos (FileState.content (JValue.bool b)) = ([], true))
    ∧ (∀ n, load_todos (FileState.content (JValue.num n)) = ([], true)) := by
  refine ⟨rfl, rfl, ?_, ?_, rfl, rfl, ?_, ?_, rfl, fun b => rfl, fun n => rfl⟩
  · intro j h
    simp [load_todos, h]
  · intro items j hmem hnone
    have h : todos_from_items items = none := todos_from_items_none ⟨j, hmem, hnone⟩
    simp [load_todos, todos_from_json, h]
  · intro f fs
    simp [load_todos, todos_from_json]
  · intro s hs
    simp [load_todos, todos_from_json, hs]

/-- Witness for C5: the amended theorem applied to a file holding a JSON
string instead of an array, an array containing a null item, a non-empty
object, and a non-empty string. -/
theorem C5_load_recovery_witness :
    load_todos (FileState.content (JValue.str "nope")) = ([], true)
    ∧ load_todos (FileState.content (JValue.arr [JValue.null])) = ([], true)
    ∧ load_todos (FileState.content (JValue.obj [("a", JValue.num 1)])) = ([], true) :=
  ⟨C5_load_recovery_amended.2.2.2.2.2.2.2.1 "nope" (by decide),
   C5_load_recovery_amended.2.2.2.1 [JValue.null] JValue.null (by simp) rfl,
   C5_load_recovery_amended.2.2.2.2.2.2.1 ("a", JValue.num 1) []⟩

/-- Counterexample to C5 as stated: a well-formed JSON array whose single
object has the required keys but wrong-typed values (a string id, a numeric
title, a null description) is loaded as a one-record collection with no
warning, where the claim demands an empty collection and a warning. -/
theorem C5_wrong_types_counterexample :
    load_todos (FileState.content (JValue.arr [JValue.obj
        [("id", JValue.str "one"), ("title", JValue.num 2), ("description", JValue.null)]]))
      = ([{ id := JValue.str "one", title := JValue.num 2, description := JValue.null,
            due_date := JValue.null, completed := JValue.bool false,
            created_at := JValue.str "" }], false) := rfl

/-- C6: on a collection with no record carrying the given id, update,
set_complete and delete all fail with the NotFound error, and the failing
operation leaves the state — in-memory collection and backing file — exactly
as it was: no record is mutated and no save is triggered. -/
theorem C6_notfound_no_mutation (s : AppState) (i : Int)
    (h : ∀ t ∈ s.todos, t.id ≠ i)
    (title desc due : Option String) (clear_due completed : Bool) :
    update_todo_fields s i title desc due clear_due = Except.error "To-do not found."
    ∧ set_complete s i completed = Except.error "To-do not found."
    ∧ delete_todo s i = Except.error "To-do not found."
    ∧ run_op s (Op.update i title desc due clear_due) = s
    ∧ run_op s (Op.mark i completed) = s
    ∧ run_op s (Op.delete i) = s := by
  have hf : find_by_id s.todos i = none := find_by_id_eq_none.mpr h
  refine ⟨?_, ?_, ?_, ?_, ?_, ?_⟩ <;>
    simp [update_todo_fields, set_complete, delete_todo, run_op, hf]

/-- Witness for C6: id 2 is absent from a one-record collection; all three
operations fail and leave the state unchanged. -/
theorem C6_notfound_witness :
    update_todo_fields ⟨[{ id := 1, title := "a", description := "b" }], FileState.missing⟩
        2 none none none false = Except.error "To-do not found."
    ∧ set_complete ⟨[{ id := 1, title := "a", description := "b" }], FileState.missing⟩
        2 true = Except.error "To-do not found."
    ∧ delete_todo ⟨[{ id := 1, title := "a", description := "b" }], FileState.missing⟩
        2 = Except.error "To-do not found."
    ∧ run_op ⟨[{ id := 1, title := "a", description := "b" }], FileState.missing⟩
        (Op.update 2 none none none false)
      = ⟨[{ id := 1, title := "a", description := "b" }], FileState.missing⟩
    ∧ run_op ⟨[{ id := 1, title := "a", description := "b" }], FileState.missing⟩
        (Op.mark 2 true)
      = ⟨[{ id := 1, title := "a", description := "b" }], FileState.missing⟩
    ∧ run_op ⟨[{ id := 1, title := "a", description := "b" }], FileState.missing⟩
        (Op.delete 2)
      = ⟨[{ id := 1, title := "a", description := "b" }], FileState.missing⟩ :=
  C6_notfound_no_mutation ⟨[{ id := 1, title := "a", description := "b" }], FileState.missing⟩
    2 (by decide) none none none false true

/-- C7: saving a collection and loading the untouched backing file reproduces
an equivalent collection: the same records, in the same order, with the same
ids and field values (each field wrapped in its JSON form by `Todo.toDyn`),
and no corruption warning. -/
theorem C7_save_load_roundtrip (s : AppState) :
    load_todos (save_todos s).file = (s.todos.map Todo.toDyn, false) := by
  simp [save_todos, load_todos, save_file, todos_from_json, todos_from_items_encode]

/-- C8: `next_id` returns 1 on an empty collection; on a non-empty collection
it returns one more than the maximum existing id (it exceeds every id and
equals some member's id plus one); on ids {2, 5} it returns 6. -/
theorem C8_next_id_spec :
    next_id [] = 1
    ∧ (∀ (todos : List Todo), ∀ t ∈ todos, t.id < next_id todos)
    ∧ (∀ todos : List Todo, todos ≠ [] → ∃ t ∈ todos, next_id todos = t.id + 1)
    ∧ next_id [{ id := 2, title := "a", description := "" },
               { id := 5, title := "b", description := "" }] = 6 := by
  refine ⟨rfl, ?_, ?_, rfl⟩
  · intro todos t h
    exact id_lt_next_id h
  · intro todos h
    exact next_id_eq_succ_mem h

/-- Witness for C8: the bound and the member form of the maximum, applied on
the two-record collection with ids 2 and 5. -/
theorem C8_next_id_witness :
    ({ id := 5, title := "b", description := "" } : Todo).id
        < next_id [{ id := 2, title := "a", description := "" },
                   { id := 5, title := "b", description := "" }]
    ∧ ∃ t ∈ [({ id := 2, title := "a", description := "" } : Todo),
             { id := 5, title := "b", description := "" }],
        next_id [({ id := 2, title := "a", description := "" } : Todo),
                 { id := 5, title := "b", description := "" }] = t.id + 1 :=
  ⟨C8_next_id_spec.2.1 [{ id := 2, title := "a", description := "" },
      { id := 5, title := "b", description := "" }]
      { id := 5, title := "b", description := "" } (by decide),
   C8_next_id_spec.2.2.1 [{ id := 2, title := "a", description := "" },
      { id := 5, title := "b", description := "" }] (by decide)⟩

/-- C9: updating an existing record with no optional field supplied (no
title, no description, no due value, `clear_due` false) leaves the collection
— every field of every record — unchanged, yet still overwrites the backing
file with the serialized collection. -/
theorem C9_update_noop_still_saves (s : AppState) (i : Int)
    (h : ∃ t ∈ s.todos, t.id = i) :
    update_todo_fields s i none none none false
      = Except.ok { todos := s.todos, file := save_file s.todos } := by
  obtain ⟨t, hmem, hid⟩ := h
  rcases hfind : find_by_id s.todos i with _ | u
  · rw [find_by_id_eq_none] at hfind
    exact absurd hid (hfind t hmem)
  · have hself : update_first i (apply_update none none none false) s.todos = s.todos :=
      update_first_eq_self i (apply_update none none none false) (fun t => rfl) s.todos
    rw [update_todo_fields, hfind, hself]
    rfl

/-- Witness for C9: a no-op update of the only record, starting from a
corrupt backing file: the collection is unchanged and the file is rewritten
with its serialization. -/
theorem C9_update_noop_witness :
    update_todo_fields ⟨[{ id := 1, title := "a", description := "b" }], FileState.corrupt⟩
        1 none none none false
      = Except.ok { todos := [{ id := 1, title := "a", description := "b" }],
                    file := save_file [{ id := 1, title := "a", description := "b" }] } :=
  C9_update_noop_still_saves
    ⟨[{ id := 1, title := "a", description := "b" }], FileState.corrupt⟩ 1
    ⟨{ id := 1, title := "a", description := "b" }, by simp, rfl⟩

/-- C10: an update with a supplied title and description stores their
stripped forms; consequently the data-model invariant that every stored title
and description carries no leading or trailing whitespace is preserved by
`update` (for any combination of arguments) just as it is established by
`add_todo`. -/
theorem C10_update_trims (s : AppState) (i : Int) (pre post : List Todo) (t : Todo)
    (hsplit : s.todos = pre ++ t :: post) (hpre : ∀ u ∈ pre, u.id ≠ i) (hid : t.id = i)
    (T D : String) :
    (∃ s', update_todo_fields s i (some T) (some D) none false = Except.ok s'
      ∧ s'.todos = pre ++ { t with title := py_strip T, description := py_strip D } :: post)
    ∧ (∀ (s₂ : AppState) (i₂ : Int) (title desc due : Option String) (cl : Bool)
        (s' : AppState), update_todo_fields s₂ i₂ title desc due cl = Except.ok s' →
        well_trimmed s₂.todos → well_trimmed s'.todos)
    ∧ (∀ (s₂ : AppState) (title desc : String) (due : Option String) (now : String),
        well_trimmed s₂.todos → well_trimmed (add_todo s₂ title desc due now).1.todos) := by
  refine ⟨?_, ?_, ?_⟩
  · have hfind : find_by_id s.todos i = some t := by
      rw [hsplit]; exact find_by_id_split hpre hid
    have hupd : update_first i (apply_update (some T) (some D) none false) s.todos
        = pre ++ apply_update (some T) (some D) none false t :: post := by
      rw [hsplit]; exact update_first_split _ hpre hid
    exact ⟨save_todos { s with
        todos := pre ++ { t with title := py_strip T, description := py_strip D } :: post },
      by rw [update_todo_fields, hfind, hupd]; rfl, rfl⟩
  · intro s₂ i₂ title desc due cl s' heq htrim
    rcases hfind : find_by_id s₂.todos i₂ with _ | u
    · rw [update_todo_fields, hfind] at heq
      cases heq
    · rw [update_todo_fields, hfind] at heq
      have hs' : s'.todos = update_first i₂ (apply_update title desc due cl) s₂.todos := by
        cases heq; rfl
      rw [hs']
      intro u' hmem'
      rcases mem_update_first hmem' with hold | ⟨v, hv, rfl⟩
      · exact htrim u' hold
      · constructor
        · rw [apply_update_title]
          rcases title with _ | w
          · exact (htrim v hv).1
          · exact py_strip_trimmed w
        · rw [apply_update_description]
          rcases desc with _ | w
          · exact (htrim v hv).2
          · exact py_strip_trimmed w
  · intro s₂ title desc due now htrim
    intro u hmem
    rcases List.mem_append.mp hmem with hold | hnew
    · exact htrim u hold
    · rcases List.mem_singleton.mp hnew with rfl
      exact ⟨py_strip_trimmed title, py_strip_trimmed desc⟩

/-- Witness for C10: updating the only record with a padded title and
description stores the trimmed texts. -/
theorem C10_update_trims_witness :
    ∃ s', update_todo_fields ⟨[{ id := 1, title := "a", description := "b" }],
        FileState.missing⟩ 1 (some "  x  ") (some " y") none false = Except.ok s'
      ∧ s'.todos = [{ id := 1, title := "x", description := "y" }] := by
  obtain ⟨⟨s', h1, h2⟩, _, _⟩ :=
    C10_update_trims ⟨[{ id := 1, title := "a", description := "b" }], FileState.missing⟩
      1 [] [] { id := 1, title := "a", description := "b" } rfl (by simp) rfl "  x  " " y"
  refine ⟨s', h1, ?_⟩
  rw [h2]
  rfl
